import Mathlib

/-!
Verification of the file-meta driver support code (`generic-driver.h`).

The development shallowly embeds `struct _VlFileMeta` and the functions
`vl_file_meta_parse`, `vl_file_meta_open`, `vl_file_meta_close`,
`vl_file_meta_put_double`, `vl_file_meta_put_uint8` and
`vl_file_meta_get_double` into Lean.  Strings are `List Char`, stream
contents are `List Nat` (bytes), and the C library stream (`FILE *`,
`fprintf`, `fwrite`, `fscanf`, `fread`, `feof`) is modelled by an explicit
record with a position, an end-of-file indicator and read/write health
flags.  Helpers that live elsewhere in the repository
(`vl_string_parse_protocol`, `vl_string_copy`,
`vl_string_replace_wildcard`, `vl_adapt_endianness_8`, the `VL_ERR_*`
and `VL_PROT_*` constants) are modelled from the specification, as noted
on each definition.
-/

set_option autoImplicit false

/-- Modelled from the spec: the `VL_PROT_*` protocol constants from
`vl/stringop.h` (not part of the given sources).  `none` is the
"Unspecified" state, `unknown` an unrecognized protocol token. -/
inductive VlProt where
  | unknown
  | none
  | ascii
  | binary
deriving DecidableEq, Repr

/-- Modelled from the spec: the `VL_ERR_*` error codes from `vl/generic.h`
(not part of the given sources). -/
inductive VlErr where
  | ok
  | overflow
  | alloc
  | badArg
  | io
  | eof
deriving DecidableEq, Repr

/-- Outcome of a C function that may hit `assert (0)`: either a fatal
assertion failure or a returned value. -/
inductive COutcome (α : Type) where
  | fatal
  | ret (a : α)
deriving DecidableEq, Repr

/-- Model of the C library stream (`FILE *`).  `data` is the byte content,
`pos` the read position, `eofFlag` the end-of-file indicator queried by
`feof`, `readOk`/`writeOk` whether the underlying device currently
completes reads/writes (a `false` flag models a stream error such as a
full disk, without setting the end-of-file indicator). -/
structure CFile where
  data : List Nat
  pos : Nat
  eofFlag : Bool
  readOk : Bool
  writeOk : Bool
deriving DecidableEq, Repr

/-- `struct _VlFileMeta`: active flag, file name pattern, protocol,
current file name, current file stream. -/
structure VlFileMeta where
  active : Bool
  pattern : List Char
  protocol : VlProt
  name : List Char
  file : Option CFile
deriving DecidableEq, Repr

/-- Split a character list at its first colon, returning the part before
and the part after; `Option.none` when no colon occurs. -/
def splitAtColon : List Char → Option (List Char × List Char)
  | [] => Option.none
  | c :: rest =>
    if c = ':' then Option.some ([], rest)
    else
      match splitAtColon rest with
      | Option.some (p, r) => Option.some (c :: p, r)
      | Option.none => Option.none

/-- The characters of the protocol name `ascii`. -/
def asciiName : List Char := ['a', 's', 'c', 'i', 'i']

/-- The characters of the protocol name `binary`. -/
def binaryName : List Char := ['b', 'i', 'n', 'a', 'r', 'y']

/-- Modelled from the spec: `vl_string_parse_protocol` (from
`vl/stringop.h`, not part of the given sources).  It recognizes an
optional case-sensitive `ascii:` or `binary:` protocol part; absence of a
colon yields the Unspecified protocol and the unchanged string; a
colon-delimited token that matches no protocol name yields `unknown`. -/
def vl_string_parse_protocol (s : List Char) : VlProt × List Char :=
  match splitAtColon s with
  | Option.none => (VlProt.none, s)
  | Option.some (p, r) =>
    if p = asciiName then (VlProt.ascii, r)
    else if p = binaryName then (VlProt.binary, r)
    else (VlProt.unknown, r)

/-- Modelled from the spec: `vl_string_copy` (from `vl/stringop.h`, not
part of the given sources): a bounds-checked copy into a buffer of
capacity `cap` that returns the length of the source; per the spec it
fails before any mutation, so on overflow the destination keeps its old
content. -/
def vl_string_copy (dst : List Char) (cap : Nat) (src : List Char) :
    List Char × Nat :=
  if src.length < cap then (src, src.length) else (dst, src.length)

/-- The tail of `vl_file_meta_parse` after the protocol switch: copy the
remaining pattern (only when it is nonempty) and check for overflow
against `sizeof (fm -> pattern) = 1024`. -/
def parseRest (fm : VlFileMeta) (arg : List Char) : VlErr × VlFileMeta :=
  if 0 < arg.length then
    let cq := vl_string_copy fm.pattern 1024 arg
    let fm' := { fm with pattern := cq.1 }
    if 1024 ≤ cq.2 then (VlErr.overflow, fm') else (VlErr.ok, fm')
  else (VlErr.ok, fm)

/-- `vl_file_meta_parse`: sets `active`, parses the optional protocol
part (`VL_PROT_UNKNOWN` yields `VL_ERR_BAD_ARG`, `ascii`/`binary` are
stored, `VL_PROT_NONE` leaves the protocol alone), then copies the
pattern with an overflow check.  A missing `optarg` (NULL) skips all of
that. -/
def vl_file_meta_parse (fm : VlFileMeta) (optarg : Option (List Char)) :
    VlErr × VlFileMeta :=
  let fm1 := { fm with active := true }
  match optarg with
  | Option.none => (VlErr.ok, fm1)
  | Option.some s =>
    let pr := vl_string_parse_protocol s
    match pr.1 with
    | VlProt.unknown => (VlErr.badArg, fm1)
    | VlProt.ascii => parseRest { fm1 with protocol := VlProt.ascii } pr.2
    | VlProt.binary => parseRest { fm1 with protocol := VlProt.binary } pr.2
    | VlProt.none => parseRest fm1 pr.2

/-- Replace every occurrence of the wildcard character `w` with the
basename, copying all other characters verbatim. -/
def substWildcard (w : Char) (basename : List Char) : List Char → List Char
  | [] => []
  | c :: rest =>
    (if c = w then basename else [c]) ++ substWildcard w basename rest

/-- Modelled from the spec: `vl_string_replace_wildcard` (from
`vl/stringop.h`, not part of the given sources): substitutes the
wildcard, returns the length of the substituted result, and writes the
result into the destination only when it fits the capacity (on overflow
it writes nothing). -/
def vl_string_replace_wildcard (dst : List Char) (cap : Nat)
    (pat : List Char) (w : Char) (basename : List Char) :
    List Char × Nat :=
  let r := substWildcard w basename pat
  if r.length < cap then (r, r.length) else (dst, r.length)

/-- A filesystem action performed by the driver code, recorded so that
theorems can state that a call touches the filesystem or does not. -/
inductive FsAction where
  | opened (name : List Char) (mode : List Char)
  | closed
deriving DecidableEq, Repr

/-- `vl_file_meta_open`: a no-op for an inactive meta; otherwise
substitutes `%` in the pattern by the basename into `fm -> name`
(capacity `sizeof (fm -> name) = 1024`), returns `VL_ERR_OVERFLOW` when
the resolved name does not fit, and only then calls `fopen` (modelled by
the oracle `fo`), returning `VL_ERR_IO` when that yields no stream.  The
returned action list records every filesystem interaction. -/
def vl_file_meta_open (fo : List Char → List Char → Option CFile)
    (fm : VlFileMeta) (basename mode : List Char) :
    VlErr × VlFileMeta × List FsAction :=
  if fm.active = false then (VlErr.ok, fm, [])
  else
    let nq := vl_string_replace_wildcard fm.name 1024 fm.pattern '%' basename
    let fm1 := { fm with name := nq.1 }
    if 1024 ≤ nq.2 then (VlErr.overflow, fm1, [])
    else
      match fo nq.1 mode with
      | Option.some f =>
        (VlErr.ok, { fm1 with file := Option.some f },
          [FsAction.opened nq.1 mode])
      | Option.none => (VlErr.io, fm1, [FsAction.opened nq.1 mode])

/-- `vl_file_meta_close`: closes the stream when one is present and
clears the field; otherwise does nothing. -/
def vl_file_meta_close (fm : VlFileMeta) : VlFileMeta × List FsAction :=
  match fm.file with
  | Option.some _ => ({ fm with file := Option.none }, [FsAction.closed])
  | Option.none => (fm, [])

/-- Model of `fprintf`: on a healthy stream it appends the formatted
bytes and returns the (positive) number of bytes written; on a failing
stream it returns a negative value. -/
def c_fprintf (f : CFile) (s : List Nat) : Int × CFile :=
  if f.writeOk then ((s.length : Int), { f with data := f.data ++ s })
  else (-1, f)

/-- Model of `fwrite` of one item: on a healthy stream it appends the
item's bytes and returns the item count 1; on a failing stream it
returns 0. -/
def c_fwrite (f : CFile) (s : List Nat) : Int × CFile :=
  if f.writeOk then (1, { f with data := f.data ++ s }) else (0, f)

/-- Model of `fread` of one item of `n` bytes: returns the bytes read,
the item count (1 on a full read, 0 otherwise) and the new stream.  A
short read caused by exhausted data sets the end-of-file indicator; a
read on an erroring stream fails without setting it. -/
def c_fread (f : CFile) (n : Nat) : List Nat × Int × CFile :=
  if f.readOk = false then ([], 0, f)
  else
    let rest := f.data.drop f.pos
    if n ≤ rest.length then
      (rest.take n, 1, { f with pos := f.pos + n })
    else
      (rest, 0, { f with pos := f.data.length, eofFlag := true })

/-- Byte value of the space character. -/
def spaceByte : Nat := 32

/-- Is the byte an ASCII whitespace character (as skipped by `fscanf`)? -/
def isSpaceByte (b : Nat) : Bool :=
  b = 32 || b = 9 || b = 10 || b = 13

/-- Is the byte an ASCII decimal digit? -/
def isDigitByte (b : Nat) : Bool :=
  decide (48 ≤ b) && decide (b ≤ 57)

/-- Digits possibly containing dots, with at least one digit: the body of
a numeric token as accepted by the `%lg` conversion model. -/
def numBody (l : List Nat) : Bool :=
  decide (l ≠ []) && l.all (fun b => isDigitByte b || b = 46) &&
    l.any isDigitByte

/-- Does the byte list form a numeric token (optional leading minus sign,
then digits possibly with a dot)? -/
def isNumToken (l : List Nat) : Bool :=
  match l with
  | 45 :: rest => numBody rest
  | _ => numBody l

/-- Model of `fscanf` with a single `%lg` conversion: skip whitespace; an
end of data reached while doing so is an input failure (negative return,
end-of-file indicator set); a following non-numeric token is a matching
failure (return 0, indicator untouched); a numeric token is consumed
(return 1) and also handed back for the caller's output argument.  A
stream in error state fails with a negative return and no indicator. -/
def c_fscanf_lg (f : CFile) : Int × List Nat × CFile :=
  if f.readOk = false then (-1, [], f)
  else
    let rest := f.data.drop f.pos
    let ws := rest.takeWhile isSpaceByte
    let rest2 := rest.drop ws.length
    if rest2 = [] then
      (-1, [], { f with pos := f.data.length, eofFlag := true })
    else
      let tok := rest2.takeWhile (fun b => !isSpaceByte b)
      if isNumToken tok then
        (1, tok, { f with pos := f.pos + ws.length + tok.length })
      else (0, [], { f with pos := f.pos + ws.length })

/-- Modelled from the spec: `vl_adapt_endianness_8` (from `vl/generic.h`,
not part of the given sources): normalization of the 8 in-memory bytes of
a double between host order and the single fixed wire order (big-endian
on the wire; a little-endian host reverses, a big-endian host copies).
The same function is applied on write and on read. -/
def vl_adapt_endianness_8 (hostLE : Bool) (b : List Nat) : List Nat :=
  if hostLE then b.reverse else b

/-- The in-memory byte representation, on a host of the given
endianness, of a double whose 64-bit pattern is given canonically as its
8 bytes from least to most significant. -/
def hostMem8 (hostLE : Bool) (v : List Nat) : List Nat :=
  if hostLE then v else v.reverse

/-- Decimal digit bytes of `n`, most significant first, with `fuel`
bounding the recursion depth. -/
def digitsAux : Nat → Nat → List Nat
  | 0, _ => []
  | fuel + 1, n => if n = 0 then [] else digitsAux fuel (n / 10) ++ [48 + n % 10]

/-- Decimal numeral of `n` as ASCII bytes. -/
def decimalBytes (n : Nat) : List Nat :=
  if n = 0 then [48] else digitsAux n n

/-- Model of the text that `fprintf` with `"%g"` produces.  No claim
depends on the exact decimal rendering of a floating-point value, only on
the text being nonempty, so the value's bytes are rendered as a decimal
numeral of the number they form. -/
def formatG (x : List Nat) : List Nat :=
  decimalBytes (x.foldl (fun acc b => acc * 256 + b) 0)

/-- Model of the text that `fprintf` with `"%d"` produces for a byte. -/
def formatD (x : Nat) : List Nat :=
  decimalBytes x

/-- `vl_file_meta_put_double`: ascii mode prints the value and a trailing
space, binary mode writes the endianness-adapted 8 bytes; any other
protocol hits `assert (0)`.  The C code then returns `VL_ERR_ALLOC` when
the value returned by `fprintf`/`fwrite` is nonzero and `VL_ERR_OK`
otherwise.  The argument `x` is the in-memory byte representation of the
double on the current host.  A missing stream is a fatal misuse (the C
code would dereference a null `FILE *`). -/
def vl_file_meta_put_double (hostLE : Bool) (fm : VlFileMeta)
    (x : List Nat) : COutcome (VlErr × VlFileMeta) :=
  match fm.protocol with
  | VlProt.ascii =>
    match fm.file with
    | Option.none => COutcome.fatal
    | Option.some f =>
      let ef := c_fprintf f (formatG x ++ [spaceByte])
      COutcome.ret
        (if ef.1 ≠ 0 then VlErr.alloc else VlErr.ok,
          { fm with file := Option.some ef.2 })
  | VlProt.binary =>
    match fm.file with
    | Option.none => COutcome.fatal
    | Option.some f =>
      let y := vl_adapt_endianness_8 hostLE x
      let ef := c_fwrite f y
      COutcome.ret
        (if ef.1 ≠ 0 then VlErr.alloc else VlErr.ok,
          { fm with file := Option.some ef.2 })
  | _ => COutcome.fatal

/-- `vl_file_meta_put_uint8`: ascii mode prints the decimal integer and a
trailing space, binary mode writes the single raw byte; any other
protocol hits `assert (0)`.  Same inverted error logic as
`vl_file_meta_put_double`. -/
def vl_file_meta_put_uint8 (fm : VlFileMeta) (x : Nat) :
    COutcome (VlErr × VlFileMeta) :=
  match fm.protocol with
  | VlProt.ascii =>
    match fm.file with
    | Option.none => COutcome.fatal
    | Option.some f =>
      let ef := c_fprintf f (formatD x ++ [spaceByte])
      COutcome.ret
        (if ef.1 ≠ 0 then VlErr.alloc else VlErr.ok,
          { fm with file := Option.some ef.2 })
  | VlProt.binary =>
    match fm.file with
    | Option.none => COutcome.fatal
    | Option.some f =>
      let ef := c_fwrite f [x % 256]
      COutcome.ret
        (if ef.1 ≠ 0 then VlErr.alloc else VlErr.ok,
          { fm with file := Option.some ef.2 })
  | _ => COutcome.fatal

/-- Stand-in for the double value that `fscanf` parses from a numeric
ascii token.  The decimal-text-to-floating-point conversion is
abstracted (no claim depends on the value, only on the error code); the
token's bytes, padded or cut to 8, stand for the stored bits. -/
def asciiBitsOfToken (tok : List Nat) : List Nat :=
  (tok ++ List.replicate 8 0).take 8

/-- `vl_file_meta_get_double`: ascii mode scans one `%lg` token, binary
mode reads 8 bytes and adapts their endianness (the adaptation runs even
after a failed read, on the partially filled buffer, as in the C code);
any other protocol hits `assert (0)`.  On a failed read the result is
`VL_ERR_EOF` when `feof` holds on the stream and `VL_ERR_BAD_ARG`
otherwise.  The returned byte list is the in-memory representation left
in the output argument `x`. -/
def vl_file_meta_get_double (hostLE : Bool) (fm : VlFileMeta) :
    COutcome (VlErr × List Nat × VlFileMeta) :=
  match fm.protocol with
  | VlProt.ascii =>
    match fm.file with
    | Option.none => COutcome.fatal
    | Option.some f =>
      let ntf := c_fscanf_lg f
      let x := asciiBitsOfToken ntf.2.1
      let f' := ntf.2.2
      let fm' := { fm with file := Option.some f' }
      COutcome.ret
        (if ntf.1 < 1 then
          (if f'.eofFlag then VlErr.eof else VlErr.badArg)
         else VlErr.ok, x, fm')
  | VlProt.binary =>
    match fm.file with
    | Option.none => COutcome.fatal
    | Option.some f =>
      let bnf := c_fread f 8
      let y := (bnf.1 ++ List.replicate 8 0).take 8
      let x := vl_adapt_endianness_8 hostLE y
      let f' := bnf.2.2
      let fm' := { fm with file := Option.some f' }
      COutcome.ret
        (if bnf.2.1 < 1 then
          (if f'.eofFlag then VlErr.eof else VlErr.badArg)
         else VlErr.ok, x, fm')
  | _ => COutcome.fatal

/-- Write a list of double values (given as in-memory byte
representations) with `vl_file_meta_put_double`, threading the meta
state and ignoring the returned error codes. -/
def putDoubleList (hostLE : Bool) (fm : VlFileMeta) :
    List (List Nat) → VlFileMeta
  | [] => fm
  | m :: rest =>
    match vl_file_meta_put_double hostLE fm m with
    | COutcome.ret efm => putDoubleList hostLE efm.2 rest
    | COutcome.fatal => fm

/-- Read `n` double values with `vl_file_meta_get_double`, collecting the
in-memory byte representations produced. -/
def getDoubleList (hostLE : Bool) (fm : VlFileMeta) :
    Nat → List (List Nat)
  | 0 => []
  | n + 1 =>
    match vl_file_meta_get_double hostLE fm with
    | COutcome.ret exfm =>
      exfm.2.1 :: getDoubleList hostLE exfm.2.2 n
    | COutcome.fatal => []

/-- Concatenation of byte chunks, written recursively to ease the
round-trip induction. -/
def concatBytes : List (List Nat) → List Nat
  | [] => []
  | c :: rest => c ++ concatBytes rest

/-- Extract the error component of a returned (non-fatal) outcome. -/
def outErr {α : Type} : COutcome (VlErr × α) → Option VlErr
  | COutcome.ret ea => Option.some ea.1
  | COutcome.fatal => Option.none

/-- A healthy, empty stream. -/
def goodFile : CFile :=
  { data := [], pos := 0, eofFlag := false, readOk := true, writeOk := true }

/-- A stream whose device no longer completes reads or writes (for
example a full disk), with the end-of-file indicator clear. -/
def deadFile : CFile :=
  { data := [], pos := 0, eofFlag := false, readOk := false, writeOk := false }

/-- A freshly opened read stream over the given bytes. -/
def freshRead (d : List Nat) : CFile :=
  { data := d, pos := 0, eofFlag := false, readOk := true, writeOk := true }

/-- An active meta descriptor with the given protocol and stream. -/
def metaOn (p : VlProt) (f : CFile) : VlFileMeta :=
  { active := true, pattern := [], protocol := p, name := [],
    file := Option.some f }

/-- A healthy stream containing the three bytes of the text `abc`. -/
def abcFile : CFile :=
  { data := [97, 98, 99], pos := 0, eofFlag := false, readOk := true,
    writeOk := true }




/-! ## Claim theorems -/

/-- C10: calling `vl_file_meta_parse` with a null option string sets
`active` to true, returns `VL_ERR_OK`, and leaves the `protocol` and
`pattern` fields (indeed every other field) unchanged. -/
theorem parse_null_optarg_sets_active (fm : VlFileMeta) :
    vl_file_meta_parse fm Option.none =
      (VlErr.ok, { fm with active := true }) := rfl

/-- C9: invoking `vl_file_meta_put_double`, `vl_file_meta_put_uint8` or
`vl_file_meta_get_double` on a meta whose protocol is neither `ascii` nor
`binary` hits the `assert (0)` branch: a fatal assertion failure, not a
recoverable error value. -/
theorem codec_bad_protocol_fatal (hostLE : Bool) (fm : VlFileMeta)
    (x : List Nat) (b : Nat)
    (h1 : fm.protocol ≠ VlProt.ascii) (h2 : fm.protocol ≠ VlProt.binary) :
    vl_file_meta_put_double hostLE fm x = COutcome.fatal ∧
    vl_file_meta_put_uint8 fm b = COutcome.fatal ∧
    vl_file_meta_get_double hostLE fm = COutcome.fatal := by
  obtain ⟨a, pat, pr, nm, fl⟩ := fm
  cases pr <;> simp_all [vl_file_meta_put_double, vl_file_meta_put_uint8,
    vl_file_meta_get_double]

/-- Witness for C9 at a concrete meta with the Unspecified protocol. -/
theorem codec_bad_protocol_fatal_witness :
    (metaOn VlProt.none goodFile).protocol ≠ VlProt.ascii ∧
    (metaOn VlProt.none goodFile).protocol ≠ VlProt.binary ∧
    (vl_file_meta_put_double true (metaOn VlProt.none goodFile) [] =
        COutcome.fatal ∧
      vl_file_meta_put_uint8 (metaOn VlProt.none goodFile) 0 =
        COutcome.fatal ∧
      vl_file_meta_get_double true (metaOn VlProt.none goodFile) =
        COutcome.fatal) :=
  ⟨by decide, by decide,
    codec_bad_protocol_fatal true (metaOn VlProt.none goodFile) [] 0
      (by decide) (by decide)⟩

/-- C1 (code bug): the put functions invert their documented error
logic.  On a healthy stream, where the underlying write completes,
`fprintf`/`fwrite` return a nonzero count, so the code returns
`VL_ERR_ALLOC`; on a failing binary write `fwrite` returns 0, so the
code returns `VL_ERR_OK`.  This evaluation exhibits both divergences for
`vl_file_meta_put_double` and `vl_file_meta_put_uint8`. -/
theorem put_error_logic_inverted :
    goodFile.writeOk = true ∧ deadFile.writeOk = false ∧
    outErr (vl_file_meta_put_double true (metaOn VlProt.ascii goodFile)
        (List.replicate 8 0)) = Option.some VlErr.alloc ∧
    outErr (vl_file_meta_put_double true (metaOn VlProt.binary goodFile)
        (List.replicate 8 0)) = Option.some VlErr.alloc ∧
    outErr (vl_file_meta_put_uint8 (metaOn VlProt.ascii goodFile) 7) =
      Option.some VlErr.alloc ∧
    outErr (vl_file_meta_put_uint8 (metaOn VlProt.binary goodFile) 7) =
      Option.some VlErr.alloc ∧
    outErr (vl_file_meta_put_double true (metaOn VlProt.binary deadFile)
        (List.replicate 8 0)) = Option.some VlErr.ok ∧
    outErr (vl_file_meta_put_uint8 (metaOn VlProt.binary deadFile) 7) =
      Option.some VlErr.ok := by decide

/-- Counterexample to C2 as stated: parsing the unknown-protocol option
string `xml:foo` fails with `VL_ERR_BAD_ARG`, yet the `active` flag of
an initially inactive meta has been mutated to `true` by the failed
call. -/
theorem parse_failure_mutates_active :
    (vl_file_meta_parse
        { active := false, pattern := [], protocol := VlProt.none,
          name := [], file := Option.none }
        (Option.some ['x', 'm', 'l', ':', 'f', 'o', 'o'])).1 =
      VlErr.badArg ∧
    (vl_file_meta_parse
        { active := false, pattern := [], protocol := VlProt.none,
          name := [], file := Option.none }
        (Option.some ['x', 'm', 'l', ':', 'f', 'o', 'o'])).2.active =
      true := by decide

/-- On failure `parseRest` leaves the meta untouched: the failing copy is
bounds-checked and writes nothing. -/
theorem parseRest_frame (fm : VlFileMeta) (arg : List Char)
    (h : (parseRest fm arg).1 ≠ VlErr.ok) :
    parseRest fm arg = (VlErr.overflow, fm) := by
  by_cases h0 : 0 < arg.length
  · by_cases h1 : 1024 ≤ arg.length
    · have h2 : ¬ arg.length < 1024 := by omega
      simp [parseRest, vl_string_copy, h0, h1, h2]
    · have h2 : arg.length < 1024 := by omega
      exfalso
      apply h
      simp [parseRest, vl_string_copy, h0, h1, h2]
  · exfalso
    apply h
    simp [parseRest, h0]

/-- `parseRest` succeeds exactly when the remaining pattern fits the
1024-byte buffer. -/
theorem parseRest_ok_iff (fm : VlFileMeta) (arg : List Char) :
    (parseRest fm arg).1 = VlErr.ok ↔ arg.length < 1024 := by
  by_cases h0 : 0 < arg.length
  · by_cases h1 : 1024 ≤ arg.length
    · have h2 : ¬ arg.length < 1024 := by omega
      rw [parseRest_frame fm arg (by simp [parseRest, vl_string_copy, h0, h1, h2])]
      constructor
      · intro hc
        simp at hc
      · intro hc
        exact absurd h1 (by omega)
    · have h2 : arg.length < 1024 := by omega
      simp [parseRest, vl_string_copy, h0, h1, h2]
  · have h2 : arg.length = 0 := by omega
    simp [parseRest, h0]
    omega

/-- On success `parseRest` stores the remaining pattern when it is
nonempty and keeps the old one when it is empty; no other field moves. -/
theorem parseRest_ok_state (fm : VlFileMeta) (arg : List Char)
    (h : (parseRest fm arg).1 = VlErr.ok) :
    (parseRest fm arg).2 =
      { fm with pattern := if arg = [] then fm.pattern else arg } := by
  by_cases h0 : 0 < arg.length
  · have hlt : arg.length < 1024 := (parseRest_ok_iff fm arg).mp h
    have h1 : ¬ 1024 ≤ arg.length := by omega
    have hne : arg ≠ [] := by
      intro hc
      rw [hc] at h0
      simp at h0
    simp [parseRest, vl_string_copy, h0, h1, hlt, hne]
  · have h2 : arg = [] := by
      cases arg with
      | nil => rfl
      | cons a l => simp at h0
    simp [parseRest, h2]

/-- C2 (amended): when `vl_file_meta_parse` fails, the `pattern` field is
unchanged and, on `VL_ERR_BAD_ARG`, so is the `protocol` field — but the
`active` flag has already been set to `true` by the failed call (and on
`VL_ERR_OVERFLOW` a protocol tag preceding the over-long pattern has
already been stored). -/
theorem parse_failure_state (fm : VlFileMeta) (s : List Char)
    (h : (vl_file_meta_parse fm (Option.some s)).1 ≠ VlErr.ok) :
    (vl_file_meta_parse fm (Option.some s)).2.pattern = fm.pattern ∧
    (vl_file_meta_parse fm (Option.some s)).2.active = true ∧
    ((vl_file_meta_parse fm (Option.some s)).1 = VlErr.badArg →
      (vl_file_meta_parse fm (Option.some s)).2.protocol = fm.protocol) := by
  cases hp : (vl_string_parse_protocol s).1 with
  | unknown => simp [vl_file_meta_parse, hp]
  | ascii =>
    simp only [vl_file_meta_parse, hp] at h ⊢
    rw [parseRest_frame _ _ h]
    simp
  | binary =>
    simp only [vl_file_meta_parse, hp] at h ⊢
    rw [parseRest_frame _ _ h]
    simp
  | none =>
    simp only [vl_file_meta_parse, hp] at h ⊢
    rw [parseRest_frame _ _ h]
    simp

/-- Witness for the amended C2 at the `xml:foo` option string and an
initially inactive meta. -/
theorem parse_failure_state_witness :
    (vl_file_meta_parse
        { active := false, pattern := ['z'], protocol := VlProt.none,
          name := [], file := Option.none }
        (Option.some ['x', 'm', 'l', ':', 'f', 'o', 'o'])).1 ≠
      VlErr.ok ∧
    ((vl_file_meta_parse
        { active := false, pattern := ['z'], protocol := VlProt.none,
          name := [], file := Option.none }
        (Option.some ['x', 'm', 'l', ':', 'f', 'o', 'o'])).2.pattern =
        ['z'] ∧
      (vl_file_meta_parse
        { active := false, pattern := ['z'], protocol := VlProt.none,
          name := [], file := Option.none }
        (Option.some ['x', 'm', 'l', ':', 'f', 'o', 'o'])).2.active =
        true ∧
      ((vl_file_meta_parse
        { active := false, pattern := ['z'], protocol := VlProt.none,
          name := [], file := Option.none }
        (Option.some ['x', 'm', 'l', ':', 'f', 'o', 'o'])).1 =
          VlErr.badArg →
        (vl_file_meta_parse
        { active := false, pattern := ['z'], protocol := VlProt.none,
          name := [], file := Option.none }
        (Option.some ['x', 'm', 'l', ':', 'f', 'o', 'o'])).2.protocol =
          VlProt.none)) :=
  ⟨by decide,
    parse_failure_state
      { active := false, pattern := ['z'], protocol := VlProt.none,
        name := [], file := Option.none }
      ['x', 'm', 'l', ':', 'f', 'o', 'o'] (by decide)⟩

/-- Counterexample to C7 as stated: parsing `binary:` (empty remainder)
succeeds, yet the stored pattern is the previous `['x']`, not the empty
remainder — the copy is skipped for an empty remainder. -/
theorem parse_empty_remainder_keeps_pattern :
    (vl_file_meta_parse
        { active := false, pattern := ['x'], protocol := VlProt.none,
          name := [], file := Option.none }
        (Option.some ['b', 'i', 'n', 'a', 'r', 'y', ':'])).1 =
      VlErr.ok ∧
    (vl_string_parse_protocol ['b', 'i', 'n', 'a', 'r', 'y', ':']).2 =
      [] ∧
    (vl_file_meta_parse
        { active := false, pattern := ['x'], protocol := VlProt.none,
          name := [], file := Option.none }
        (Option.some ['b', 'i', 'n', 'a', 'r', 'y', ':'])).2.pattern =
      ['x'] := by decide

/-- C7 (amended): on success the stored pattern equals the remainder of
the option string after the optional protocol tag when that remainder is
nonempty; an empty remainder leaves the previously stored pattern
unchanged. -/
theorem parse_ok_pattern (fm : VlFileMeta) (s : List Char)
    (h : (vl_file_meta_parse fm (Option.some s)).1 = VlErr.ok) :
    (vl_file_meta_parse fm (Option.some s)).2.pattern =
      (if (vl_string_parse_protocol s).2 = [] then fm.pattern
        else (vl_string_parse_protocol s).2) := by
  cases hp : (vl_string_parse_protocol s).1 with
  | unknown => simp [vl_file_meta_parse, hp] at h
  | ascii =>
    simp only [vl_file_meta_parse, hp] at h ⊢
    rw [parseRest_ok_state _ _ h]
  | binary =>
    simp only [vl_file_meta_parse, hp] at h ⊢
    rw [parseRest_ok_state _ _ h]
  | none =>
    simp only [vl_file_meta_parse, hp] at h ⊢
    rw [parseRest_ok_state _ _ h]

/-- Witness for the amended C7 at `ascii:p` (nonempty remainder). -/
theorem parse_ok_pattern_witness :
    (vl_file_meta_parse
        { active := false, pattern := ['x'], protocol := VlProt.none,
          name := [], file := Option.none }
        (Option.some ['a', 's', 'c', 'i', 'i', ':', 'p'])).1 =
      VlErr.ok ∧
    (vl_file_meta_parse
        { active := false, pattern := ['x'], protocol := VlProt.none,
          name := [], file := Option.none }
        (Option.some ['a', 's', 'c', 'i', 'i', ':', 'p'])).2.pattern =
      (if (vl_string_parse_protocol ['a', 's', 'c', 'i', 'i', ':', 'p']).2
          = [] then ['x']
        else (vl_string_parse_protocol
          ['a', 's', 'c', 'i', 'i', ':', 'p']).2) :=
  ⟨by decide,
    parse_ok_pattern
      { active := false, pattern := ['x'], protocol := VlProt.none,
        name := [], file := Option.none }
      ['a', 's', 'c', 'i', 'i', ':', 'p'] (by decide)⟩

/-- A string without a colon has no protocol part. -/
theorem splitAtColon_eq_none (s : List Char) (h : ':' ∉ s) :
    splitAtColon s = Option.none := by
  induction s with
  | nil => rfl
  | cons c rest ih =>
    have hc : ¬ c = ':' := by
      intro hc
      exact h (hc ▸ List.mem_cons_self c rest)
    have hr : ':' ∉ rest := fun hm => h (List.mem_cons_of_mem c hm)
    simp [splitAtColon, hc, ih hr]

/-- Splitting at the first colon of `p ++ ':' :: r` with no colon in `p`
yields `p` and `r`. -/
theorem splitAtColon_append (p r : List Char) (h : ':' ∉ p) :
    splitAtColon (p ++ ':' :: r) = Option.some (p, r) := by
  induction p with
  | nil => simp [splitAtColon]
  | cons c rest ih =>
    have hc : ¬ c = ':' := by
      intro hc
      exact h (hc ▸ List.mem_cons_self c rest)
    have hr : ':' ∉ rest := fun hm => h (List.mem_cons_of_mem c hm)
    simp [splitAtColon, hc, ih hr]

/-- A colon-free option string parses to the Unspecified protocol with
the string unchanged. -/
theorem parse_protocol_no_colon (s : List Char) (h : ':' ∉ s) :
    vl_string_parse_protocol s = (VlProt.none, s) := by
  simp [vl_string_parse_protocol, splitAtColon_eq_none s h]

/-- The `ascii:` tag parses to the ascii protocol and the remainder. -/
theorem parse_protocol_ascii_tag (r : List Char) :
    vl_string_parse_protocol (asciiName ++ ':' :: r) =
      (VlProt.ascii, r) := rfl

/-- The `binary:` tag parses to the binary protocol and the remainder. -/
theorem parse_protocol_binary_tag (r : List Char) :
    vl_string_parse_protocol (binaryName ++ ':' :: r) =
      (VlProt.binary, r) := rfl

/-- `parseRest` never touches the protocol field. -/
theorem parseRest_snd_protocol (fm : VlFileMeta) (arg : List Char) :
    (parseRest fm arg).2.protocol = fm.protocol := by
  simp only [parseRest, vl_string_copy]
  split_ifs <;> rfl

/-- C6: a valid option string without a recognized protocol tag leaves
the protocol field at its previously configured value and parses
successfully, while strings tagged `ascii:` or `binary:` parse
successfully and set the corresponding protocol ("valid" meaning the
pattern part fits its 1024-byte buffer). -/
theorem parse_protocol_selection (fm : VlFileMeta) (s rest : List Char)
    (hnc : ':' ∉ s) (hs : s.length < 1024) (hr : rest.length < 1024) :
    ((vl_file_meta_parse fm (Option.some s)).1 = VlErr.ok ∧
      (vl_file_meta_parse fm (Option.some s)).2.protocol =
        fm.protocol) ∧
    ((vl_file_meta_parse fm
        (Option.some (asciiName ++ ':' :: rest))).1 = VlErr.ok ∧
      (vl_file_meta_parse fm
        (Option.some (asciiName ++ ':' :: rest))).2.protocol =
        VlProt.ascii) ∧
    ((vl_file_meta_parse fm
        (Option.some (binaryName ++ ':' :: rest))).1 = VlErr.ok ∧
      (vl_file_meta_parse fm
        (Option.some (binaryName ++ ':' :: rest))).2.protocol =
        VlProt.binary) := by
  have hpp := parse_protocol_no_colon s hnc
  have hpa := parse_protocol_ascii_tag rest
  have hpb := parse_protocol_binary_tag rest
  refine ⟨⟨?_, ?_⟩, ⟨?_, ?_⟩, ⟨?_, ?_⟩⟩
  · simp only [vl_file_meta_parse, hpp]
    exact (parseRest_ok_iff _ _).mpr hs
  · simp only [vl_file_meta_parse, hpp]
    rw [parseRest_snd_protocol]
  · simp only [vl_file_meta_parse, hpa]
    exact (parseRest_ok_iff _ _).mpr hr
  · simp only [vl_file_meta_parse, hpa]
    rw [parseRest_snd_protocol]
  · simp only [vl_file_meta_parse, hpb]
    exact (parseRest_ok_iff _ _).mpr hr
  · simp only [vl_file_meta_parse, hpb]
    rw [parseRest_snd_protocol]

/-- Witness for C6 at the strings `p`, `ascii:q`, `binary:q`. -/
theorem parse_protocol_selection_witness :
    (':' ∉ ['p']) ∧ (['p'] : List Char).length < 1024 ∧
      (['q'] : List Char).length < 1024 ∧
    (((vl_file_meta_parse
        { active := false, pattern := [], protocol := VlProt.none,
          name := [], file := Option.none }
        (Option.some ['p'])).1 = VlErr.ok ∧
      (vl_file_meta_parse
        { active := false, pattern := [], protocol := VlProt.none,
          name := [], file := Option.none }
        (Option.some ['p'])).2.protocol = VlProt.none) ∧
    ((vl_file_meta_parse
        { active := false, pattern := [], protocol := VlProt.none,
          name := [], file := Option.none }
        (Option.some (asciiName ++ ':' :: ['q']))).1 = VlErr.ok ∧
      (vl_file_meta_parse
        { active := false, pattern := [], protocol := VlProt.none,
          name := [], file := Option.none }
        (Option.some (asciiName ++ ':' :: ['q']))).2.protocol =
        VlProt.ascii) ∧
    ((vl_file_meta_parse
        { active := false, pattern := [], protocol := VlProt.none,
          name := [], file := Option.none }
        (Option.some (binaryName ++ ':' :: ['q']))).1 = VlErr.ok ∧
      (vl_file_meta_parse
        { active := false, pattern := [], protocol := VlProt.none,
          name := [], file := Option.none }
        (Option.some (binaryName ++ ':' :: ['q']))).2.protocol =
        VlProt.binary)) :=
  ⟨by decide, by decide, by decide,
    parse_protocol_selection
      { active := false, pattern := [], protocol := VlProt.none,
        name := [], file := Option.none }
      ['p'] ['q'] (by decide) (by decide) (by decide)⟩

/-- Counterexample to C8 as stated: on an inactive meta that holds a
stream, `vl_file_meta_close` does act — it closes the stream and clears
the field (the C code checks `fm -> file`, not `fm -> active`). -/
theorem close_inactive_with_stream_acts :
    ({ active := false, pattern := [], protocol := VlProt.none,
        name := [], file := Option.some goodFile } : VlFileMeta).active =
      false ∧
    (vl_file_meta_close
        { active := false, pattern := [], protocol := VlProt.none,
          name := [], file := Option.some goodFile }).2 =
      [FsAction.closed] ∧
    (vl_file_meta_close
        { active := false, pattern := [], protocol := VlProt.none,
          name := [], file := Option.some goodFile }).1.file =
      Option.none := by decide

/-- C8 (amended): on an inactive meta, `open` returns `VL_ERR_OK` with no
filesystem action and no mutation, for arbitrary basename and mode; and
`close` (which always succeeds) performs no action and no mutation
provided the stream field is empty — as the invariant guarantees for an
inactive meta — while it closes any stream that is present. -/
theorem inactive_open_close_noop
    (fo : List Char → List Char → Option CFile) (fm : VlFileMeta)
    (basename mode : List Char) (h : fm.active = false) :
    vl_file_meta_open fo fm basename mode = (VlErr.ok, fm, []) ∧
    (fm.file = Option.none → vl_file_meta_close fm = (fm, [])) := by
  constructor
  · simp [vl_file_meta_open, h]
  · intro hf
    simp [vl_file_meta_close, hf]

/-- Witness for the amended C8 on a concrete inactive, stream-free
meta. -/
theorem inactive_open_close_noop_witness :
    ({ active := false, pattern := ['u'], protocol := VlProt.ascii,
        name := ['v'], file := Option.none } : VlFileMeta).active =
      false ∧
    (vl_file_meta_open (fun _ _ => Option.none)
        { active := false, pattern := ['u'], protocol := VlProt.ascii,
          name := ['v'], file := Option.none } ['b'] ['w'] =
      (VlErr.ok,
        { active := false, pattern := ['u'], protocol := VlProt.ascii,
          name := ['v'], file := Option.none }, []) ∧
    (({ active := false, pattern := ['u'], protocol := VlProt.ascii,
        name := ['v'], file := Option.none } : VlFileMeta).file =
        Option.none →
      vl_file_meta_close
        { active := false, pattern := ['u'], protocol := VlProt.ascii,
          name := ['v'], file := Option.none } =
      ({ active := false, pattern := ['u'], protocol := VlProt.ascii,
          name := ['v'], file := Option.none }, []))) :=
  ⟨by decide,
    inactive_open_close_noop (fun _ _ => Option.none)
      { active := false, pattern := ['u'], protocol := VlProt.ascii,
        name := ['v'], file := Option.none } ['b'] ['w'] (by decide)⟩

/-- C3: for an active meta whose substituted resolved name has length at
least 1024, `vl_file_meta_open` returns `VL_ERR_OVERFLOW`, performs no
filesystem action (no stream opened, no file created) and leaves the
meta unchanged. -/
theorem open_overflow_before_fs
    (fo : List Char → List Char → Option CFile) (fm : VlFileMeta)
    (basename mode : List Char) (ha : fm.active = true)
    (hlen : 1024 ≤ (substWildcard '%' basename fm.pattern).length) :
    vl_file_meta_open fo fm basename mode = (VlErr.overflow, fm, []) := by
  have h1 : ¬ (substWildcard '%' basename fm.pattern).length < 1024 := by
    omega
  obtain ⟨a, pat, pr, nm, fl⟩ := fm
  simp only at ha h1
  subst ha
  simp [vl_file_meta_open, vl_string_replace_wildcard, h1]

/-- Substituting the wildcard in the one-character pattern `[w]` yields
exactly the basename. -/
theorem substWildcard_single (w : Char) (bn : List Char) :
    substWildcard w bn [w] = bn := by
  simp [substWildcard]

/-- Witness for C3: the pattern `%` with a 1024-character basename
resolves to a name of length 1024. -/
theorem open_overflow_before_fs_witness :
    ({ active := true, pattern := ['%'], protocol := VlProt.binary,
        name := [], file := Option.none } : VlFileMeta).active = true ∧
    1024 ≤ (substWildcard '%' (List.replicate 1024 'a')
        (['%'] : List Char)).length ∧
    vl_file_meta_open (fun _ _ => Option.none)
        { active := true, pattern := ['%'], protocol := VlProt.binary,
          name := [], file := Option.none }
        (List.replicate 1024 'a') ['w'] =
      (VlErr.overflow,
        { active := true, pattern := ['%'], protocol := VlProt.binary,
          name := [], file := Option.none }, []) :=
  ⟨by decide,
    by rw [substWildcard_single, List.length_replicate],
    open_overflow_before_fs (fun _ _ => Option.none)
      { active := true, pattern := ['%'], protocol := VlProt.binary,
        name := [], file := Option.none }
      (List.replicate 1024 'a') ['w'] (by decide)
      (by rw [substWildcard_single, List.length_replicate])⟩

/-- C4: whenever the read or parse in `vl_file_meta_get_double` fails
(result not `VL_ERR_OK`), the result is `VL_ERR_EOF` exactly when the
stream's end-of-file indicator holds after the failed read, and
`VL_ERR_BAD_ARG` exactly otherwise: the distinction is made by `feof` on
the stream, not by the read's return value. -/
theorem get_double_eof_distinction (hostLE : Bool) (fm : VlFileMeta)
    (e : VlErr) (x : List Nat) (fm' : VlFileMeta)
    (hp : fm.protocol = VlProt.ascii ∨ fm.protocol = VlProt.binary)
    (h : vl_file_meta_get_double hostLE fm = COutcome.ret (e, x, fm'))
    (herr : e ≠ VlErr.ok) :
    ∃ f', fm'.file = Option.some f' ∧
      (e = VlErr.eof ↔ f'.eofFlag = true) ∧
      (e = VlErr.badArg ↔ f'.eofFlag = false) := by
  rcases hp with hp | hp
  · rcases hf : fm.file with _ | f
    · rw [vl_file_meta_get_double, hp, hf] at h
      exact absurd h (by simp)
    · rw [vl_file_meta_get_double, hp, hf] at h
      simp only [COutcome.ret.injEq, Prod.mk.injEq] at h
      obtain ⟨he, hx, hfm⟩ := h
      subst hfm
      refine ⟨(c_fscanf_lg f).2.2, rfl, ?_, ?_⟩
      · by_cases hn : (c_fscanf_lg f).1 < 1
        · by_cases hflag : (c_fscanf_lg f).2.2.eofFlag
          · simp [← he, hn, hflag]
          · simp [← he, hn, hflag]
        · exact absurd (by simp [← he, hn]) herr
      · by_cases hn : (c_fscanf_lg f).1 < 1
        · by_cases hflag : (c_fscanf_lg f).2.2.eofFlag
          · simp [← he, hn, hflag]
          · simp [← he, hn, hflag]
        · exact absurd (by simp [← he, hn]) herr
  · rcases hf : fm.file with _ | f
    · rw [vl_file_meta_get_double, hp, hf] at h
      exact absurd h (by simp)
    · rw [vl_file_meta_get_double, hp, hf] at h
      simp only [COutcome.ret.injEq, Prod.mk.injEq] at h
      obtain ⟨he, hx, hfm⟩ := h
      subst hfm
      refine ⟨(c_fread f 8).2.2, rfl, ?_, ?_⟩
      · by_cases hn : (c_fread f 8).2.1 < 1
        · by_cases hflag : (c_fread f 8).2.2.eofFlag
          · simp [← he, hn, hflag]
          · simp [← he, hn, hflag]
        · exact absurd (by simp [← he, hn]) herr
      · by_cases hn : (c_fread f 8).2.1 < 1
        · by_cases hflag : (c_fread f 8).2.2.eofFlag
          · simp [← he, hn, hflag]
          · simp [← he, hn, hflag]
        · exact absurd (by simp [← he, hn]) herr

/-- Witness for C4: reading a malformed ascii token (`abc`) fails with
`VL_ERR_BAD_ARG` while the end-of-file indicator is clear. -/
theorem get_double_eof_distinction_witness :
    ((metaOn VlProt.ascii abcFile).protocol = VlProt.ascii ∨
      (metaOn VlProt.ascii abcFile).protocol = VlProt.binary) ∧
    vl_file_meta_get_double true (metaOn VlProt.ascii abcFile) =
      COutcome.ret (VlErr.badArg, List.replicate 8 0,
        metaOn VlProt.ascii abcFile) ∧
    VlErr.badArg ≠ VlErr.ok ∧
    (∃ f', (metaOn VlProt.ascii abcFile).file = Option.some f' ∧
      (VlErr.badArg = VlErr.eof ↔ f'.eofFlag = true) ∧
      (VlErr.badArg = VlErr.badArg ↔ f'.eofFlag = false)) :=
  ⟨by decide, by decide, by decide,
    get_double_eof_distinction true (metaOn VlProt.ascii abcFile)
      VlErr.badArg (List.replicate 8 0) (metaOn VlProt.ascii abcFile)
      (by decide) (by decide) (by decide)⟩

/-- The endianness adaptation is an involution: applying the write-side
normalization and then the read-side one recovers the original bytes. -/
theorem adapt8_involutive (hostLE : Bool) (b : List Nat) :
    vl_adapt_endianness_8 hostLE (vl_adapt_endianness_8 hostLE b) = b := by
  cases hostLE <;> simp [vl_adapt_endianness_8]

/-- Conversion between the canonical 64-bit pattern and the host memory
bytes is an involution. -/
theorem hostMem8_involutive (hostLE : Bool) (b : List Nat) :
    hostMem8 hostLE (hostMem8 hostLE b) = b := by
  cases hostLE <;> simp [hostMem8]

/-- Splitting a drop over a sum of offsets. -/
theorem drop_add_split (l : List Nat) (a b : Nat) :
    l.drop (a + b) = (l.drop a).drop b := by
  rw [List.drop_drop]

/-- Writing a list of doubles in binary protocol appends, to the stream
content, the endianness-adapted 8-byte groups in order, and keeps the
stream healthy. -/
theorem putDoubleList_binary_data (hostLE : Bool) (ms : List (List Nat)) :
    ∀ (fm : VlFileMeta) (f : CFile), fm.protocol = VlProt.binary →
      fm.file = Option.some f → f.writeOk = true →
      ∃ f' : CFile,
        (putDoubleList hostLE fm ms).file = Option.some f' ∧
        f'.data = f.data ++
          concatBytes (ms.map (vl_adapt_endianness_8 hostLE)) ∧
        f'.writeOk = true := by
  induction ms with
  | nil =>
    intro fm f hp hf hw
    exact ⟨f, hf, by simp [concatBytes], hw⟩
  | cons m rest ih =>
    intro fm f hp hf hw
    have hstep : vl_file_meta_put_double hostLE fm m =
        COutcome.ret (VlErr.alloc,
          { fm with file := Option.some ({ f with data := f.data ++ vl_adapt_endianness_8 hostLE m }) }) := by
      rw [vl_file_meta_put_double, hp, hf]
      simp [c_fwrite, hw]
    have hred : putDoubleList hostLE fm (m :: rest) =
        putDoubleList hostLE
          { fm with file := Option.some ({ f with data := f.data ++ vl_adapt_endianness_8 hostLE m }) }
          rest := by
      simp only [putDoubleList, hstep]
    rw [hred]
    obtain ⟨f', h1, h2, h3⟩ := ih
      { fm with file := Option.some ({ f with data := f.data ++ vl_adapt_endianness_8 hostLE m }) }
      { f with data := f.data ++ vl_adapt_endianness_8 hostLE m }
      (by simp [hp]) (by simp) (by simp [hw])
    refine ⟨f', h1, ?_, h3⟩
    rw [h2]
    simp [concatBytes, List.append_assoc]

/-- Reading back a stream whose remaining content is a concatenation of
8-byte groups yields, group by group, the endianness adaptation of each
group. -/
theorem getDoubleList_binary_chunks (hostLE : Bool)
    (cs : List (List Nat)) :
    ∀ (fm : VlFileMeta) (f : CFile), fm.protocol = VlProt.binary →
      fm.file = Option.some f → f.readOk = true →
      f.data.drop f.pos = concatBytes cs →
      (∀ c ∈ cs, c.length = 8) →
      getDoubleList hostLE fm cs.length =
        cs.map (vl_adapt_endianness_8 hostLE) := by
  induction cs with
  | nil =>
    intro fm f hp hf hr hd h8
    simp [getDoubleList]
  | cons c rest ih =>
    intro fm f hp hf hr hd h8
    have hc8 : c.length = 8 := h8 c (List.mem_cons_self c rest)
    have hcc : concatBytes (c :: rest) = c ++ concatBytes rest := rfl
    have h1 : ¬ f.readOk = false := by simp [hr]
    have h2 : 8 ≤ (f.data.drop f.pos).length := by
      rw [hd, hcc]
      simp [hc8]
    have hread : c_fread f 8 = (c, 1, { f with pos := f.pos + 8 }) := by
      simp only [c_fread, if_neg h1, if_pos h2]
      rw [hd, hcc, ← hc8]
      simp
    have hstep : vl_file_meta_get_double hostLE fm =
        COutcome.ret (VlErr.ok, vl_adapt_endianness_8 hostLE c,
          { fm with file := Option.some ({ f with pos := f.pos + 8 }) }) := by
      rw [vl_file_meta_get_double, hp, hf]
      simp only [hread]
      rw [← hc8]
      simp
    have hred : getDoubleList hostLE fm (c :: rest).length =
        vl_adapt_endianness_8 hostLE c ::
          getDoubleList hostLE
            { fm with file := Option.some ({ f with pos := f.pos + 8 }) }
            rest.length := by
      simp only [List.length_cons, getDoubleList, hstep]
    rw [hred]
    rw [ih { fm with file := Option.some ({ f with pos := f.pos + 8 }) }
      { f with pos := f.pos + 8 } (by simp [hp]) (by simp) (by simp [hr])
      (by
        show f.data.drop (f.pos + 8) = concatBytes rest
        rw [drop_add_split, hd, hcc, ← hc8]
        simp)
      (fun c' hc' => h8 c' (List.mem_cons_of_mem c hc'))]
    rfl

/-- Pushing a value through host-memory conversion, write-side
adaptation, read-side adaptation and back recovers it, element-wise on a
list. -/
theorem map_adapt_round (hostLE : Bool) (l : List (List Nat)) :
    (((l.map (hostMem8 hostLE)).map (vl_adapt_endianness_8 hostLE)).map
        (vl_adapt_endianness_8 hostLE)).map (hostMem8 hostLE) = l := by
  induction l with
  | nil => rfl
  | cons v t iht =>
    simp only [List.map_cons, List.cons.injEq]
    exact ⟨by rw [adapt8_involutive, hostMem8_involutive], iht⟩

/-- C5: writing a sequence of double values (as 64-bit patterns) in
binary protocol and reading them back through a freshly opened handle
over the written bytes yields bit-identical values, for either simulated
host byte order: the endianness normalization applied on write is
exactly inverted on read. -/
theorem binary_round_trip (hostLE : Bool) (vs : List (List Nat))
    (h8 : ∀ v ∈ vs, v.length = 8) :
    ∃ f1 : CFile,
      (putDoubleList hostLE (metaOn VlProt.binary goodFile)
          (vs.map (hostMem8 hostLE))).file = Option.some f1 ∧
      (getDoubleList hostLE (metaOn VlProt.binary (freshRead f1.data))
          vs.length).map (hostMem8 hostLE) = vs := by
  obtain ⟨f1, hfile, hdata, hw⟩ :=
    putDoubleList_binary_data hostLE (vs.map (hostMem8 hostLE))
      (metaOn VlProt.binary goodFile) goodFile rfl rfl rfl
  refine ⟨f1, hfile, ?_⟩
  have hdata' : f1.data = concatBytes
      ((vs.map (hostMem8 hostLE)).map (vl_adapt_endianness_8 hostLE)) := by
    rw [hdata]
    simp [goodFile]
  have hlen8 : ∀ c ∈ (vs.map (hostMem8 hostLE)).map
      (vl_adapt_endianness_8 hostLE), c.length = 8 := by
    intro c hc
    simp only [List.mem_map] at hc
    obtain ⟨m, ⟨v, hv, rfl⟩, rfl⟩ := hc
    cases hostLE <;> simp [vl_adapt_endianness_8, hostMem8, h8 v hv]
  have hcount : vs.length = ((vs.map (hostMem8 hostLE)).map
      (vl_adapt_endianness_8 hostLE)).length := by simp
  have hget := getDoubleList_binary_chunks hostLE
    ((vs.map (hostMem8 hostLE)).map (vl_adapt_endianness_8 hostLE))
    (metaOn VlProt.binary (freshRead f1.data)) (freshRead f1.data)
    rfl rfl rfl (by simp [freshRead, hdata']) hlen8
  rw [hcount, hget]
  exact map_adapt_round hostLE vs

/-- Witness for C5: a one-element sequence, on both simulated host byte
orders. -/
theorem binary_round_trip_witness :
    (∀ v ∈ ([[1, 2, 3, 4, 5, 6, 7, 8]] : List (List Nat)),
      v.length = 8) ∧
    (∃ f1 : CFile,
      (putDoubleList true (metaOn VlProt.binary goodFile)
          (([[1, 2, 3, 4, 5, 6, 7, 8]] : List (List Nat)).map
            (hostMem8 true))).file = Option.some f1 ∧
      (getDoubleList true (metaOn VlProt.binary (freshRead f1.data))
          ([[1, 2, 3, 4, 5, 6, 7, 8]] : List (List Nat)).length).map
          (hostMem8 true) = [[1, 2, 3, 4, 5, 6, 7, 8]]) ∧
    (∃ f1 : CFile,
      (putDoubleList false (metaOn VlProt.binary goodFile)
          (([[1, 2, 3, 4, 5, 6, 7, 8]] : List (List Nat)).map
            (hostMem8 false))).file = Option.some f1 ∧
      (getDoubleList false (metaOn VlProt.binary (freshRead f1.data))
          ([[1, 2, 3, 4, 5, 6, 7, 8]] : List (List Nat)).length).map
          (hostMem8 false) = [[1, 2, 3, 4, 5, 6, 7, 8]]) :=
  ⟨by
      intro v hv
      rw [List.mem_singleton] at hv
      subst hv
      rfl,
    binary_round_trip true [[1, 2, 3, 4, 5, 6, 7, 8]]
      (by
        intro v hv
        rw [List.mem_singleton] at hv
        subst hv
        rfl),
    binary_round_trip false [[1, 2, 3, 4, 5, 6, 7, 8]]
      (by
        intro v hv
        rw [List.mem_singleton] at hv
        subst hv
        rfl)⟩
